import Mathlib

/-!
Verification of the gitoxide smart-transport negotiation core.

Shallow embedding of three source files:
- `git-protocol/src/fetch.rs` (capability set, credential retry, fetch entry point)
- `gix/src/remote/connection/handshake.rs` (object-format resolution)
- `gix/src/remote/connection/ref_map.rs` (ref-map builder, ls-refs filtering, teardown)

Byte strings (`BString`/`BStr`) are modelled as Lean `String`; the claims under
study only exercise ASCII data, where the two agree.  Machine-level payloads
that the control flow never inspects (object ids, io error payloads, opaque
error sources) are modelled as `Nat` tags so that distinct runtime values stay
distinguishable.
-/

namespace Gitoxide

/-- Decidable equality for `Except`, needed to evaluate concrete runs. -/
instance exceptDecEq {ε α : Type} [DecidableEq ε] [DecidableEq α] : DecidableEq (Except ε α) := fun a b =>
  match a, b with
  | .ok x, .ok y => if h : x = y then .isTrue (by rw [h]) else .isFalse (by intro hc; cases hc; exact h rfl)
  | .ok _, .error _ => .isFalse (by intro hc; cases hc)
  | .error _, .ok _ => .isFalse (by intro hc; cases hc)
  | .error x, .error y => if h : x = y then .isTrue (by rw [h]) else .isFalse (by intro hc; cases hc; exact h rfl)

/-- Byte-wise lexicographic order on character lists; stands for the ordering
of byte strings that Rust's `BTreeMap<BString, _>` uses. -/
def charListLt : List Char → List Char → Bool
| [], [] => false
| [], _ :: _ => true
| _ :: _, [] => false
| a :: as, b :: bs =>
  if a.toNat < b.toNat then true
  else if b.toNat < a.toNat then false
  else charListLt as bs

/-- Lexicographic order on strings (the `Ord` of `BString` keys). -/
def strLt (a b : String) : Bool := charListLt a.data b.data

/-- Models `git_transport::Protocol`: the two wire protocol versions. -/
inductive Protocol
| v1
| v2
deriving DecidableEq, Repr

/-- The classification of an `std::io::Error`; only `PermissionDenied` is
inspected by the retry protocol. -/
inductive IoErrorKind
| permissionDenied
| otherKind (code : Nat)
deriving DecidableEq, Repr

/-- An `std::io::Error`: a kind plus an opaque payload distinguishing
distinct runtime errors of the same kind. -/
structure IoError where
  kind : IoErrorKind
  payload : Nat
deriving DecidableEq, Repr

/-- Models `git_transport::client::Error`: an io error or any other transport error. -/
inductive ClientError
| io (err : IoError)
| nonIo (code : Nat)
deriving DecidableEq, Repr

/-- The guard `matches!(e, client::Error::Io { err } if err.kind() == PermissionDenied)`
used by both arms of the credential retry in `fetch.rs`. -/
def ClientError.isPermissionDenied : ClientError → Bool
| .io e => match e.kind with
  | .permissionDenied => true
  | .otherKind _ => false
| .nonIo _ => false

/-- Models `git_protocol::credentials::Error`, opaque to the fetch control flow. -/
structure CredentialsError where
  code : Nat
deriving DecidableEq, Repr

/-- Models `git_protocol::fetch::Error` (the `quick_error!` enum in `fetch.rs`). -/
inductive FetchError
| credentials (err : CredentialsError)
| transport (err : ClientError)
deriving DecidableEq, Repr

/-- A credential identity returned by `Fill`, opaque to the control flow. -/
structure Identity where
  user : String
  pass : String
deriving DecidableEq, Repr

/-- The ordered capability store: `BTreeMap<BString, Option<BString>>`
as a strictly key-sorted association list. -/
abbrev CapMap := List (String × Option String)

/-- Models `BTreeMap::insert`: replace the value at an existing key, otherwise place
the new entry at its sorted position. -/
def btreeInsert (k : String) (v : Option String) : CapMap → CapMap
| [] => [(k, v)]
| (k', v') :: rest =>
  if strLt k k' then (k, v) :: (k', v') :: rest
  else if k == k' then (k, v) :: rest
  else (k', v') :: btreeInsert k v rest

/-- Models `BTreeMap::get`: the value stored at a key, if any. -/
def btreeGet (m : CapMap) (k : String) : Option (Option String) :=
  (m.find? (fun e => e.1 == k)).map (fun e => e.2)

/-- The well-formedness invariant every `BTreeMap` state satisfies: keys are
strictly increasing (hence unique). -/
def SortedKeys (m : CapMap) : Prop :=
  List.Pairwise (fun a b => strLt a.1 b.1 = true) m

/-- Models `git_protocol::fetch::Capabilities`: the normalized capability set. -/
structure Capabilities where
  available : CapMap
deriving DecidableEq, Repr

/-- The compile-time product/version string
`concat!("git/oxide-", env!("CARGO_PKG_VERSION"))`; the exact version number is
fixed at build time and never inspected, a representative value is used. -/
def agent_version_string : String := "git/oxide-0.0.0"

/-- Models `Capabilities::set_agent_version`: stamp/overwrite the `agent` capability. -/
def Capabilities.set_agent_version (c : Capabilities) : Capabilities :=
  ⟨btreeInsert "agent" (some agent_version_string) c.available⟩

/-- Split a character list at every occurrence of `sep` (the semantics of
Rust's `slice::split`, which yields one possibly-empty chunk between
consecutive separators). -/
def splitChars (sep : Char) : List Char → List (List Char)
| [] => [[]]
| c :: rest =>
  if c = sep then [] :: splitChars sep rest
  else match splitChars sep rest with
       | [] => [[c]]
       | h :: t => (c :: h) :: t

/-- Split a string on a separator character. -/
def splitOnChar (sep : Char) (s : String) : List String :=
  (splitChars sep s.data).map (fun l => String.mk l)

/-- Models `Capabilities::values_of`: the space-separated values of the capability of
the given name: `None` when the key is absent or stored without a value. -/
def Capabilities.values_of (c : Capabilities) (name : String) : Option (List String) :=
  (btreeGet c.available name).bind (fun v => v.map (fun s => splitOnChar ' ' s))

/-- The `From<client::Capabilities> for Capabilities` conversion: fold the
advertised `(name, value)` tokens into the `BTreeMap` in iteration order
(`BTreeMap::extend`, later entries overwriting earlier ones). -/
def capabilitiesFromClient (tokens : List (String × Option String)) : Capabilities :=
  ⟨tokens.foldl (fun m e => btreeInsert e.1 e.2 m) []⟩

/-- Parse one advertised capability token of the grammar `name` or
`name=value` (split at the first `=`). -/
def splitFirstEq : List Char → List Char × Option (List Char)
| [] => ([], none)
| c :: rest =>
  if c = '=' then ([], some rest)
  else
    let (n, v) := splitFirstEq rest
    (c :: n, v)

/-- Parse a raw capability token into its name and optional value. -/
def parseToken (t : String) : String × Option String :=
  let (n, v) := splitFirstEq t.data
  (String.mk n, v.map (fun l => String.mk l))

/-- Build a capability set from raw advertisement tokens (the transport parses
the tokens, the `From` conversion folds them into the map). -/
def capabilitiesFromTokens (tokens : List String) : Capabilities :=
  capabilitiesFromClient (tokens.map parseToken)

/-- Models `git_transport::client::SetServiceResponse` as produced by
`Transport::handshake`: the negotiated protocol, the raw capability tokens and,
for protocol V1 only, the inline ref advertisement (a list of text lines). -/
structure SetServiceResponse where
  actual_protocol : Protocol
  capabilities : List (String × Option String)
  refs : Option (List String)
deriving DecidableEq, Repr

/-- Which authenticator/transport side effects a run of the credential retry
protocol performed: number of `Fill` calls, `approve()` calls, `reject()`
calls, and handshake attempts. -/
structure AuthTrace where
  fills : Nat
  approves : Nat
  rejects : Nat
  attempts : Nat
deriving DecidableEq, Repr

/-- The credential retry protocol wrapped around `transport.handshake` in
`git_protocol::fetch::fetch` (fetch.rs lines 163-197).  Each external
interaction is an input:
`first_attempt`/`second_attempt` are the two possible handshake results,
`fill_result` the authenticator's answer to `Fill`, `set_identity_result` the
transport's answer to installing the identity, and `approve_result` /
`reject_result` the authenticator's answers to the finalization calls.
Returns the propagated result together with the trace of performed calls. -/
def fetchHandshake
    (first_attempt second_attempt : Except ClientError SetServiceResponse)
    (fill_result : Except CredentialsError Identity)
    (set_identity_result : Except ClientError Unit)
    (approve_result reject_result : Except CredentialsError Unit) :
    Except FetchError SetServiceResponse × AuthTrace :=
  match first_attempt with
  | .ok v => (.ok v, ⟨0, 0, 0, 1⟩)
  | .error e =>
    if e.isPermissionDenied then
      match fill_result with
      | .error ce => (.error (.credentials ce), ⟨1, 0, 0, 1⟩)
      | .ok _identity =>
        match set_identity_result with
        | .error te => (.error (.transport te), ⟨1, 0, 0, 1⟩)
        | .ok _ =>
          match second_attempt with
          | .ok v =>
            match approve_result with
            | .error ce => (.error (.credentials ce), ⟨1, 1, 0, 2⟩)
            | .ok _ => (.ok v, ⟨1, 1, 0, 2⟩)
          | .error e2 =>
            if e2.isPermissionDenied then
              match reject_result with
              | .error ce => (.error (.credentials ce), ⟨1, 0, 1, 2⟩)
              | .ok _ => (.error (.transport e2), ⟨1, 0, 1, 2⟩)
            else
              (.error (.transport e2), ⟨1, 0, 0, 2⟩)
    else
      (.error (.transport e), ⟨0, 0, 0, 1⟩)

example :
    (fetchHandshake (.ok ⟨.v1, [], some []⟩) (.error (.nonIo 0)) (.ok ⟨"u", "p"⟩)
      (.ok ()) (.ok ()) (.ok ())) = (.ok ⟨.v1, [], some []⟩, ⟨0, 0, 0, 1⟩) := by decide

example :
    (fetchHandshake (.error (.io ⟨.permissionDenied, 0⟩)) (.error (.io ⟨.permissionDenied, 1⟩))
      (.ok ⟨"u", "p"⟩) (.ok ()) (.ok ()) (.ok ()))
    = (.error (.transport (.io ⟨.permissionDenied, 1⟩)), ⟨1, 0, 1, 2⟩) := by decide

/-- Models `git_protocol::fetch::Ref`: the typed reference records. Object ids
(`owned::Id`, a 20-byte hash) are opaque `Nat` tags. -/
inductive Ref
| tag (path : String) (id : Nat)
| commit (path : String) (id : Nat)
| symbolic (path : String) (target : String) (id : Nat)
| symbolicForLookup (path : String) (target : String)
deriving DecidableEq, Repr

/-- Models `git_protocol::fetch::extract_symrefs` (fetch.rs lines 154-156): the
function body in the source is empty (a single commented-out line,
`// capabilities.available.iter()`), so neither the output ref list nor the
capability set is changed. -/
def extract_symrefs (out_refs : List Ref) (capabilities : Capabilities) :
    List Ref × Capabilities :=
  (out_refs, capabilities)

/-- How a panicking exit of `fetch` came about: a failed `assert_eq!` or the
closing `unimplemented!`. -/
inductive PanicKind
| assertionFailure (msg : String)
| unimplemented (msg : String)
deriving DecidableEq, Repr

/-- The three ways an execution of `git_protocol::fetch::fetch` can end:
a normal `Ok(())` return, a propagated `Err`, or a panic. -/
inductive FetchOutcome
| ok
| err (e : FetchError)
| panicked (k : PanicKind)
deriving DecidableEq, Repr

/-- Whether a fetch execution ended in a propagated typed error. -/
def FetchOutcome.isErr : FetchOutcome → Bool
| .err _ => true
| _ => false

/-- The post-handshake tail of `fetch` (fetch.rs lines 205-225): the `match`
over the inline ref stream whose both arms `assert_eq!` the protocol version,
followed by the unconditional `unimplemented!("rest of fetch")`. -/
def fetchTail (actual_protocol : Protocol) (refs : Option (List String)) : FetchOutcome :=
  match refs with
  | some _ =>
    if actual_protocol = Protocol.v1 then .panicked (.unimplemented "rest of fetch")
    else .panicked (.assertionFailure "Only V1 auto-responds with refs")
  | none =>
    if actual_protocol = Protocol.v2 then .panicked (.unimplemented "rest of fetch")
    else .panicked (.assertionFailure "Only V2 needs a separate request to get specific refs")

/-- Models `git_protocol::fetch::fetch` (fetch.rs lines 158-225): the credential-retry
handshake, capability normalization (conversion, delegate adjustment hook,
agent stamping, symref extraction), then the protocol-version assertions and
the unimplemented remainder.  The delegate's `adjust_capabilities` is the
caller-supplied adjustment hook. -/
def fetch
    (first_attempt second_attempt : Except ClientError SetServiceResponse)
    (fill_result : Except CredentialsError Identity)
    (set_identity_result : Except ClientError Unit)
    (approve_result reject_result : Except CredentialsError Unit)
    (adjust_capabilities : Protocol → Capabilities → Capabilities) : FetchOutcome :=
  match fetchHandshake first_attempt second_attempt fill_result set_identity_result
      approve_result reject_result with
  | (.error e, _) => .err e
  | (.ok resp, _) =>
    let caps := capabilitiesFromClient resp.capabilities
    let caps := adjust_capabilities resp.actual_protocol caps
    let caps := caps.set_agent_version
    let parsed_refs : List Ref := []
    let (_parsed_refs, _caps) := extract_symrefs parsed_refs caps
    fetchTail resp.actual_protocol resp.refs

example :
    fetch (.ok ⟨.v2, [], some ["line"]⟩) (.error (.nonIo 0)) (.ok ⟨"u", "p"⟩)
      (.ok ()) (.ok ()) (.ok ()) (fun _ c => c)
    = .panicked (.assertionFailure "Only V1 auto-responds with refs") := by decide

example :
    fetch (.error (.nonIo 7)) (.error (.nonIo 0)) (.ok ⟨"u", "p"⟩)
      (.ok ()) (.ok ()) (.ok ()) (fun _ c => c)
    = .err (.transport (.nonIo 7)) := by decide

/-! The `gix` layer: `remote/connection/handshake.rs` and
`remote/connection/ref_map.rs`. -/

/-- Models `gix_transport::client::Capabilities` as seen by the `gix` layer: the
parsed `(name, optional value)` entries in advertisement order;
`Capabilities::capability(name)` finds the first entry of that name. -/
abbrev CapList := List (String × Option String)

/-- Models `Capabilities::capability`: the first advertised entry with this name. -/
def capability (caps : CapList) (name : String) : Option (String × Option String) :=
  caps.find? (fun e => e.1 == name)

/-- Models `gix_hash::Kind`: the object-hash algorithms the client understands. -/
inductive Kind
| sha1
deriving DecidableEq, Repr

/-- Models `gix_protocol::handshake::Outcome` as consumed by `ref_map`: the
capability list plus, for protocol V1 only, the already-parsed inline refs. -/
structure HandshakeOutcome where
  capabilities : CapList
  refs : Option (List Ref)
deriving DecidableEq, Repr

/-- Models `gix::remote::connection::handshake::Error`; variants whose payload the
modelled control flow never inspects carry opaque `Nat` tags. -/
inductive HandshakeError
| gatherTransportConfig (code : Nat)
| configureTransport (code : Nat)
| handshakeFailure (code : Nat)
| unknownObjectFormat (format : String)
| transportFailure (e : ClientError)
| configureCredentials (code : Nat)
deriving DecidableEq, Repr

/-- Models `extract_object_format` (handshake.rs lines 88-106): resolve the
object-hash algorithm from the `object-format` capability; absent (or
valueless) means the sha1 default, `sha1` is accepted, anything else is an
`UnknownObjectFormat` error.  (The source's UTF-8 decoding step reports
undecodable values through the same error variant; values are already strings
in this model.) -/
def extract_object_format (outcome : HandshakeOutcome) : Except HandshakeError Kind :=
  match (capability outcome.capabilities "object-format").bind (fun e => e.2) with
  | some object_format =>
    if object_format = "sha1" then .ok Kind.sha1
    else .error (.unknownObjectFormat object_format)
  | none => .ok Kind.sha1

/-- Models `gix_refspec::RefSpec` as this layer uses it: equality (for the tag-spec
dedup), a match `instruction` (the dedup key in `fetch_refs`) and the path
prefixes `expand_prefixes` derives from it.  Both are produced by the external
`gix-refspec` crate, so they are opaque data here. -/
structure RefSpec where
  instruction : Nat
  prefixes : List String
deriving DecidableEq, Repr

/-- Models `gix::remote::fetch::SpecIndex`: provenance of a mapping's refspec.  -/
inductive SpecIndex
| explicitInRemote (i : Nat)
| implicit (i : Nat)
deriving DecidableEq, Repr

/-- Models `gix::remote::fetch::Source`: the remote side of a mapping. -/
inductive Source
| objectId (id : Nat)
| ref (r : Ref)
deriving DecidableEq, Repr

/-- Models `gix_refspec::match_group::SourceRef`: what the matcher reports as the
left-hand side of a match row. -/
inductive SourceRef
| objectId (id : Nat)
| name (n : String)
deriving DecidableEq, Repr

/-- One validated row of the external matcher's output
(`gix_refspec::match_group` mapping): the index of the matched remote item (if
matched by name), the left-hand side, the optional local destination, and the
index of the refspec that produced the match. -/
structure MatchRow where
  item_index : Option Nat
  lhs : SourceRef
  rhs : Option String
  spec_index : Nat
deriving DecidableEq, Repr

/-- Models `gix::remote::fetch::Mapping`. -/
structure Mapping where
  remote : Source
  local_ : Option String
  spec_index : SpecIndex
deriving DecidableEq, Repr

/-- Conversion of one match row into a `Mapping` (ref_map.rs lines 148-164):
the remote side is the advertised ref at `item_index` when present, else the
bare object id of the left-hand side (`unreachable!` when the left-hand side
is not an object id); `none` stands for the panicking executions
(`unreachable!` or an out-of-bounds `remote.refs[idx]`). -/
def toMapping (num_explicit_specs : Nat) (refs : List Ref) (m : MatchRow) : Option Mapping :=
  let remoteSide : Option Source :=
    match m.item_index with
    | none =>
      match m.lhs with
      | .objectId id => some (Source.objectId id)
      | .name _ => none
    | some idx => (refs.get? idx).map Source.ref
  remoteSide.map (fun remote =>
    { remote := remote
      local_ := m.rhs
      spec_index :=
        if m.spec_index < num_explicit_specs then SpecIndex.explicitInRemote m.spec_index
        else SpecIndex.implicit (m.spec_index - num_explicit_specs) })

/-- The `mappings.into_iter().map(...).collect()` loop: converts every row,
propagating a panic (`none`) from any row. -/
def mapRows (num_explicit_specs : Nat) (refs : List Ref) : List MatchRow → Option (List Mapping)
| [] => some []
| r :: rest =>
  match toMapping num_explicit_specs refs r with
  | none => none
  | some m => (mapRows num_explicit_specs refs rest).map (fun ms => m :: ms)

/-- Models `gix::remote::fetch::RefMap`: the produced result value.  Fixes reported
by the validator are opaque tags. -/
structure RefMap where
  mappings : List Mapping
  extra_refspecs : List RefSpec
  fixes : List Nat
  remote_refs : List Ref
  handshake : HandshakeOutcome
  object_hash : Kind
deriving DecidableEq, Repr

/-- Models `gix::remote::connection::ref_map::Error`. -/
inductive RefMapError
| gatherTransportConfig (code : Nat)
| configureTransport (code : Nat)
| handshakeFailure (e : HandshakeError)
| listRefs (code : Nat)
| transportFailure (e : ClientError)
| configureCredentials (code : Nat)
| mappingValidation (code : Nat)
deriving DecidableEq, Repr

/-- The three ways an execution of `ref_map_inner` can end: a complete
`RefMap`, a typed error, or a panic propagating out of the conversion loop. -/
inductive RunResult (α : Type)
| ok (val : α)
| err (e : RefMapError)
| panicked (msg : String)
deriving DecidableEq, Repr

/-- Models `HandshakeWithRefs`: the handshake outcome paired with the full ref list
(inline for V1, from `ls_refs` for V2). -/
structure HandshakeWithRefs where
  outcome : HandshakeOutcome
  refs : List Ref
deriving DecidableEq, Repr

/-- Append the tag-following refspec to the caller's extra refspecs unless
already present (ref_map.rs lines 115-119). -/
def addTagRefspec (tag_spec : Option RefSpec) (extra_refspecs : List RefSpec) : List RefSpec :=
  match tag_spec with
  | some ts => if ts ∈ extra_refspecs then extra_refspecs else extra_refspecs ++ [ts]
  | none => extra_refspecs

/-- Models `Connection::ref_map_inner` (ref_map.rs lines 103-176).  External
collaborators enter as values: `fetch_refs_result` is the outcome of the
handshake-plus-listing step, `match_validated` the external refspec matcher
(`MatchGroup::match_remotes(..).validated()`), applied to the full spec list
and the advertised refs.  `fetch_specs` are the remote's configured explicit
specs, `tag_spec` the tag-policy refspec, `extra0` the caller's extra implicit
refspecs. -/
def ref_map_inner
    (fetch_specs : List RefSpec) (tag_spec : Option RefSpec) (extra0 : List RefSpec)
    (fetch_refs_result : Except RefMapError HandshakeWithRefs)
    (match_validated : List RefSpec → List Ref → Except Nat (List MatchRow × List Nat)) :
    RunResult RefMap :=
  let extra_refspecs := addTagRefspec tag_spec extra0
  let specs := fetch_specs ++ extra_refspecs
  match fetch_refs_result with
  | .error e => .err e
  | .ok remote =>
    let num_explicit_specs := fetch_specs.length
    match match_validated specs remote.refs with
    | .error e => .err (.mappingValidation e)
    | .ok (rows, fixes) =>
      match mapRows num_explicit_specs remote.refs rows with
      | none => .panicked "no item index implies having an object id"
      | some mappings =>
        match extract_object_format remote.outcome with
        | .error e => .err (.handshakeFailure e)
        | .ok object_hash =>
          .ok { mappings := mappings
                extra_refspecs := extra_refspecs
                fixes := fixes
                remote_refs := remote.refs
                handshake := remote.outcome
                object_hash := object_hash }

/-- Models `Connection::ref_map` (ref_map.rs lines 93-99): run `ref_map_inner`, then
send the best-effort end-of-interaction notification — its result is
discarded by `.ok()` — and return the inner result unchanged.  The second
component counts notification attempts; a panic unwinding out of the inner
call skips the notification. -/
def ref_map
    (fetch_specs : List RefSpec) (tag_spec : Option RefSpec) (extra0 : List RefSpec)
    (fetch_refs_result : Except RefMapError HandshakeWithRefs)
    (match_validated : List RefSpec → List Ref → Except Nat (List MatchRow × List Nat))
    (notify_result : Except ClientError Unit) :
    RunResult RefMap × Nat :=
  match ref_map_inner fetch_specs tag_spec extra0 fetch_refs_result match_validated with
  | .panicked m => (.panicked m, 0)
  | res =>
    let _ := notify_result
    (res, 1)

/-- The mutable argument/feature state the `ls_refs` invocation hands to its
preparation callback. -/
structure LsRefsArgs where
  arguments : List String
  features : List (String × Option String)
deriving DecidableEq, Repr

/-- One iteration of the refspec loop in the `ls_refs` closure (ref_map.rs
lines 200-211): the accumulator holds the `seen` set of match instructions and
the argument list; a refspec whose instruction was already seen contributes
nothing, a new one records its instruction and appends one
`ref-prefix <path>` argument per expanded path. -/
def ref_prefix_step (acc : List Nat × List String) (spec : RefSpec) : List Nat × List String :=
  if spec.instruction ∈ acc.1 then acc
  else (spec.instruction :: acc.1,
        acc.2 ++ spec.prefixes.map (fun p => "ref-prefix " ++ p))

/-- The closure passed to `gix_protocol::ls_refs` by `fetch_refs` (ref_map.rs
lines 196-214): always push the agent-identity feature; when prefix filtering
is enabled, run the deduplicating refspec loop over the argument list.
(`filter_specs` is the source's prefix-filtering flag.) -/
def ls_refs_callback (agent_feature : String × Option String) (filter_specs : Bool)
    (refspecs : List RefSpec) (st : LsRefsArgs) : LsRefsArgs :=
  let features := st.features ++ [agent_feature]
  let arguments :=
    if filter_specs then (refspecs.foldl ref_prefix_step ([], st.arguments)).2
    else st.arguments
  { arguments := arguments, features := features }

example :
    ls_refs_callback ("agent", some "git/oxide") true
      [⟨0, ["refs/heads/"]⟩, ⟨0, ["refs/heads/"]⟩, ⟨1, ["refs/tags/"]⟩] ⟨[], []⟩
    = ⟨["ref-prefix refs/heads/", "ref-prefix refs/tags/"], [("agent", some "git/oxide")]⟩ := by
  decide

/-! Helper lemmas about the key order and the capability map. -/

theorem charListLt_irrefl : ∀ l : List Char, charListLt l l = false := by
  intro l
  induction l with
  | nil => rfl
  | cons a as ih => simp [charListLt, ih]

theorem charListLt_trans : ∀ (a b c : List Char),
    charListLt a b = true → charListLt b c = true → charListLt a c = true := by
  intro a
  induction a with
  | nil =>
    intro b c hab hbc
    cases b with
    | nil => simp [charListLt] at hab
    | cons bh bt =>
      cases c with
      | nil => simp [charListLt] at hbc
      | cons ch ct => simp [charListLt]
  | cons ah atl ih =>
    intro b c hab hbc
    cases b with
    | nil => simp [charListLt] at hab
    | cons bh bt =>
      cases c with
      | nil => simp [charListLt] at hbc
      | cons ch ct =>
        simp only [charListLt] at hab hbc ⊢
        by_cases h1 : ah.toNat < bh.toNat
        · by_cases h2 : bh.toNat < ch.toNat
          · have h3 : ah.toNat < ch.toNat := Nat.lt_trans h1 h2
            simp [h3]
          · by_cases h3 : ch.toNat < bh.toNat
            · simp [h2, h3] at hbc
            · have heq : bh.toNat = ch.toNat := by omega
              have h4 : ah.toNat < ch.toNat := by omega
              simp [h4]
        · by_cases h2 : bh.toNat < ah.toNat
          · simp [h1, h2] at hab
          · have heq : ah.toNat = bh.toNat := by omega
            simp [h1, h2] at hab
            by_cases h3 : bh.toNat < ch.toNat
            · have h4 : ah.toNat < ch.toNat := by omega
              simp [h4]
            · by_cases h4 : ch.toNat < bh.toNat
              · simp [h3, h4] at hbc
              · simp [h3, h4] at hbc
                have h5 : ¬ ah.toNat < ch.toNat := by omega
                have h6 : ¬ ch.toNat < ah.toNat := by omega
                simp [h5, h6]
                exact ih bt ct hab hbc

theorem strLt_irrefl (s : String) : strLt s s = false := charListLt_irrefl s.data

theorem strLt_trans {a b c : String} (hab : strLt a b = true) (hbc : strLt b c = true) :
    strLt a c = true := charListLt_trans a.data b.data c.data hab hbc

theorem strLt_ne {a b : String} (h : strLt a b = true) : a ≠ b := by
  intro he
  rw [he, strLt_irrefl] at h
  exact Bool.false_ne_true h

/-- Number of entries stored under a key. -/
def countKey (k : String) (m : CapMap) : Nat := (m.filter (fun e => e.1 == k)).length

theorem countKey_nil (k : String) : countKey k [] = 0 := rfl

theorem countKey_eq_zero (k : String) (m : CapMap) (h : ∀ e ∈ m, e.1 ≠ k) :
    countKey k m = 0 := by
  induction m with
  | nil => rfl
  | cons e rest ih =>
    have h1 : (e.1 == k) = false := by simpa using h e (List.mem_cons_self e rest)
    have h2 := ih (fun x hx => h x (List.mem_cons_of_mem e hx))
    simpa [countKey, List.filter_cons, h1] using h2

theorem btreeInsert_idem (k : String) (v : Option String) (l : CapMap) :
    btreeInsert k v (btreeInsert k v l) = btreeInsert k v l := by
  induction l with
  | nil => simp [btreeInsert, strLt_irrefl]
  | cons e rest ih =>
    by_cases h1 : strLt k e.1 = true
    · simp [btreeInsert, h1, strLt_irrefl]
    · by_cases h2 : k = e.1
      · simp [btreeInsert, h1, h2, strLt_irrefl]
      · have h2' : (k == e.1) = false := by simp [h2]
        simp [btreeInsert, h1, h2', ih]

theorem mem_btreeInsert (k : String) (v : Option String) (l : CapMap) :
    (k, v) ∈ btreeInsert k v l := by
  induction l with
  | nil => simp [btreeInsert]
  | cons e rest ih =>
    by_cases h1 : strLt k e.1 = true
    · simp [btreeInsert, h1]
    · by_cases h2 : k = e.1
      · simp [btreeInsert, h1, h2, strLt_irrefl]
      · have h2' : (k == e.1) = false := by simp [h2]
        simp [btreeInsert, h1, h2', ih]

theorem countKey_cons_self (k : String) (v : Option String) (m : CapMap) :
    countKey k ((k, v) :: m) = countKey k m + 1 := by
  simp [countKey, List.filter_cons]

theorem countKey_cons_ne (k : String) (e : String × Option String) (m : CapMap)
    (h : (e.1 == k) = false) : countKey k (e :: m) = countKey k m := by
  simp [countKey, List.filter_cons, h]

theorem countKey_btreeInsert (k : String) (v : Option String) (l : CapMap)
    (hs : SortedKeys l) : countKey k (btreeInsert k v l) = 1 := by
  induction l with
  | nil => simp [btreeInsert, countKey, List.filter_cons]
  | cons e rest ih =>
    rw [SortedKeys, List.pairwise_cons] at hs
    obtain ⟨hall, hrest⟩ := hs
    by_cases h1 : strLt k e.1 = true
    · have hz : countKey k (e :: rest) = 0 := by
        apply countKey_eq_zero
        intro x hx
        rcases List.mem_cons.mp hx with hx | hx
        · rw [hx]; exact fun he => strLt_ne h1 he.symm
        · have hlt : strLt k x.1 = true := strLt_trans h1 (hall x hx)
          exact fun he => strLt_ne hlt he.symm
      have heq : btreeInsert k v (e :: rest) = (k, v) :: e :: rest := by
        simp [btreeInsert, h1]
      rw [heq, countKey_cons_self]
      omega
    · by_cases h2 : k = e.1
      · have h2' : (k == e.1) = true := by simp [h2]
        have heq : btreeInsert k v (e :: rest) = (k, v) :: rest := by
          simp [btreeInsert, h1, h2']
        rw [heq, countKey_cons_self]
        have hz : countKey k rest = 0 := by
          apply countKey_eq_zero
          intro x hx
          have hlt : strLt e.1 x.1 = true := hall x hx
          rw [← h2] at hlt
          exact fun he => strLt_ne hlt he.symm
        omega
      · have h2' : (k == e.1) = false := by simp [h2]
        have he1 : (e.1 == k) = false := by
          simp only [beq_eq_false_iff_ne]
          exact fun he => h2 he.symm
        have heq : btreeInsert k v (e :: rest) = e :: btreeInsert k v rest := by
          simp [btreeInsert, h1, h2']
        rw [heq, countKey_cons_ne k e _ he1]
        exact ih hrest

theorem btreeGet_btreeInsert_ne (k k' : String) (v : Option String) (l : CapMap)
    (hne : k' ≠ k) : btreeGet (btreeInsert k v l) k' = btreeGet l k' := by
  have hke : ((k, v).1 == k') = false := by simp; exact fun he => hne he.symm
  induction l with
  | nil => simp [btreeInsert, btreeGet, List.find?, hke]
  | cons e rest ih =>
    by_cases h1 : strLt k e.1 = true
    · simp only [btreeInsert, h1, if_pos, btreeGet, List.find?, hke]
    · by_cases h2 : k = e.1
      · have h2' : (k == e.1) = true := by simp [h2]
        have hee : (e.1 == k') = false := by simp; rw [← h2]; exact fun he => hne he.symm
        simp only [btreeInsert, h1, if_neg, Bool.false_eq_true, not_false_iff, h2', if_pos,
          btreeGet, List.find?, hke, hee]
      · have h2' : (k == e.1) = false := by simp [h2]
        simp only [btreeInsert, h1, if_neg, Bool.false_eq_true, not_false_iff, h2']
        simp only [btreeGet, List.find?] at ih ⊢
        cases he : (e.1 == k') with
        | true => simp [he]
        | false => simp [he]; exact ih

theorem ref_prefix_step_skip (acc : List Nat × List String) (t : RefSpec)
    (h : t.instruction ∈ acc.1) : ref_prefix_step acc t = acc := by
  simp [ref_prefix_step, h]

theorem ref_prefix_step_seen_mem (acc : List Nat × List String) (s : RefSpec) :
    s.instruction ∈ (ref_prefix_step acc s).1 := by
  by_cases h : s.instruction ∈ acc.1 <;> simp [ref_prefix_step, h]

theorem foldl_seen_mono (l : List RefSpec) (acc : List Nat × List String) (x : Nat)
    (h : x ∈ acc.1) : x ∈ (l.foldl ref_prefix_step acc).1 := by
  induction l generalizing acc with
  | nil => exact h
  | cons s rest ih =>
    simp only [List.foldl_cons]
    apply ih
    unfold ref_prefix_step
    split
    · exact h
    · exact List.mem_cons_of_mem _ h

theorem toMapping_spec_index (N : Nat) (refs : List Ref) (row : MatchRow) (m : Mapping)
    (h : toMapping N refs row = some m) :
    m.spec_index = if row.spec_index < N then SpecIndex.explicitInRemote row.spec_index
                   else SpecIndex.implicit (row.spec_index - N) := by
  simp only [toMapping, Option.map_eq_some'] at h
  obtain ⟨src, _hsrc, hm⟩ := h
  rw [← hm]

theorem mapRows_get (N : Nat) (refs : List Ref) :
    ∀ (rows : List MatchRow) (ms : List Mapping), mapRows N refs rows = some ms →
    ∀ (i : Nat) (row : MatchRow) (m : Mapping),
      rows[i]? = some row → ms[i]? = some m → toMapping N refs row = some m := by
  intro rows
  induction rows with
  | nil =>
    intro ms _h i row m hr _hm
    simp at hr
  | cons r rest ih =>
    intro ms h i row m hr hm
    simp only [mapRows] at h
    cases ht : toMapping N refs r with
    | none => rw [ht] at h; simp at h
    | some m0 =>
      rw [ht] at h
      cases hrec : mapRows N refs rest with
      | none => rw [hrec] at h; simp at h
      | some ms0 =>
        rw [hrec] at h
        simp only [Option.map_some', Option.some.injEq] at h
        subst h
        cases i with
        | zero =>
          simp only [List.getElem?_cons_zero, Option.some.injEq] at hr hm
          rw [← hr, ← hm]
          exact ht
        | succ n =>
          simp only [List.getElem?_cons_succ] at hr hm
          exact ih ms0 hrec n row m hr hm

/-! Claim theorems. -/

theorem fetchTail_ne_ok (p : Protocol) (refs : Option (List String)) :
    fetchTail p refs ≠ FetchOutcome.ok := by
  cases refs <;> cases p <;> simp [fetchTail]

/-- C9: on the capability set built from the tokens `unrelated`,
`symref=HEAD:refs/heads/main` and `agent=X`, `values_of "symref"` yields
exactly `["HEAD:refs/heads/main"]`, and `values_of` on any key not among the
tokens yields `none`. -/
theorem values_of_symref_tokens :
    (capabilitiesFromTokens ["unrelated", "symref=HEAD:refs/heads/main", "agent=X"]).values_of "symref"
      = some ["HEAD:refs/heads/main"]
    ∧ ∀ k : String, k ∉ (["unrelated", "symref", "agent"] : List String) →
      (capabilitiesFromTokens ["unrelated", "symref=HEAD:refs/heads/main", "agent=X"]).values_of k = none := by
  constructor
  · decide
  · intro k hk
    simp only [List.mem_cons, List.not_mem_nil, or_false, not_or] at hk
    obtain ⟨h1, h2, h3⟩ := hk
    have hmap : capabilitiesFromTokens ["unrelated", "symref=HEAD:refs/heads/main", "agent=X"]
        = ⟨[("agent", some "X"), ("symref", some "HEAD:refs/heads/main"), ("unrelated", none)]⟩ := by
      decide
    have ha : ("agent" == k) = false := by
      simp only [beq_eq_false_iff_ne]; exact fun he => h3 he.symm
    have hs : ("symref" == k) = false := by
      simp only [beq_eq_false_iff_ne]; exact fun he => h2 he.symm
    have hu : ("unrelated" == k) = false := by
      simp only [beq_eq_false_iff_ne]; exact fun he => h1 he.symm
    rw [hmap]
    simp [Capabilities.values_of, btreeGet, List.find?, ha, hs, hu]

/-- C9 witness: an unknown key returns nothing. -/
theorem values_of_symref_tokens_witness :
    (capabilitiesFromTokens ["unrelated", "symref=HEAD:refs/heads/main", "agent=X"]).values_of "frob" = none :=
  values_of_symref_tokens.2 "frob" (by decide)

/-- C8: stamping the agent capability is idempotent; on any well-formed
(`BTreeMap`-sorted) capability set the result holds exactly one `agent` entry
carrying the stamped product/version string, and every other key's stored
value is unchanged. -/
theorem set_agent_version_idempotent :
    ∀ caps : Capabilities, SortedKeys caps.available →
      caps.set_agent_version.set_agent_version = caps.set_agent_version
      ∧ countKey "agent" caps.set_agent_version.available = 1
      ∧ ("agent", some agent_version_string) ∈ caps.set_agent_version.available
      ∧ ∀ k, k ≠ "agent" → btreeGet caps.set_agent_version.available k = btreeGet caps.available k := by
  intro caps hs
  refine ⟨?_, ?_, ?_, ?_⟩
  · simp [Capabilities.set_agent_version, btreeInsert_idem]
  · exact countKey_btreeInsert _ _ _ hs
  · exact mem_btreeInsert _ _ _
  · intro k hk
    exact btreeGet_btreeInsert_ne _ _ _ _ hk

/-- C8 witness: stamping a concrete one-entry capability set leaves exactly
one `agent` entry. -/
theorem set_agent_version_idempotent_witness :
    countKey "agent" (Capabilities.set_agent_version ⟨[("symref", some "HEAD:refs/heads/main")]⟩).available = 1 :=
  (set_agent_version_idempotent ⟨[("symref", some "HEAD:refs/heads/main")]⟩ (by simp [SortedKeys])).2.1

/-- C5: object-hash resolution from handshake capabilities: an absent (or
valueless) `object-format` capability yields the sha1 default, the value
`sha1` yields sha1, and any other value yields an unsupported-object-format
error. -/
theorem extract_object_format_resolution :
    ∀ outcome : HandshakeOutcome,
      ((capability outcome.capabilities "object-format").bind (fun e => e.2) = none →
        extract_object_format outcome = .ok Kind.sha1)
      ∧ ∀ v, (capability outcome.capabilities "object-format").bind (fun e => e.2) = some v →
          (v = "sha1" → extract_object_format outcome = .ok Kind.sha1)
          ∧ (v ≠ "sha1" → extract_object_format outcome = .error (.unknownObjectFormat v)) := by
  intro outcome
  constructor
  · intro h
    simp [extract_object_format, h]
  · intro v hv
    constructor
    · intro he
      simp [extract_object_format, hv, he]
    · intro hne
      simp [extract_object_format, hv, hne]

/-- C5 witness: a server advertising `object-format=sha1` resolves to sha1. -/
theorem extract_object_format_resolution_witness :
    extract_object_format ⟨[("object-format", some "sha1")], none⟩ = .ok Kind.sha1 :=
  ((extract_object_format_resolution ⟨[("object-format", some "sha1")], none⟩).2 "sha1" (by decide)).1 rfl

/-- C3 (code bug): `extract_symrefs` is an unfinished stub.  On the claim's
own capability set it appends nothing — in particular no
`SymbolicForLookup HEAD refs/heads/main` record — and the `BTreeMap` storage
collapses a repeated `symref` capability to the last entry, so multiple
symbolic refs cannot even be represented. -/
theorem extract_symrefs_is_stub :
    (extract_symrefs [] (capabilitiesFromTokens ["unrelated", "symref=HEAD:refs/heads/main", "agent=X"])).1 = []
    ∧ (extract_symrefs [] (capabilitiesFromTokens ["unrelated", "symref=HEAD:refs/heads/main", "agent=X"])).2
        = capabilitiesFromTokens ["unrelated", "symref=HEAD:refs/heads/main", "agent=X"]
    ∧ (capabilitiesFromTokens ["symref=HEAD:refs/heads/main", "symref=ANOTHER:refs/heads/baz"]).available
        = [("symref", some "ANOTHER:refs/heads/baz")] := by
  refine ⟨rfl, rfl, by decide⟩

/-- C10: `git_protocol::fetch::fetch` never returns `Ok(())`: every execution
either propagates a typed error or panics (assertion failure or the
`unimplemented!` remainder). -/
theorem fetch_never_returns_ok :
    ∀ first second fill setId approve reject adjust,
      fetch first second fill setId approve reject adjust ≠ FetchOutcome.ok := by
  intro first second fill setId approve reject adjust
  unfold fetch
  split
  · simp
  · exact fetchTail_ne_ok _ _

/-- C10 witness: a concrete successful V2 handshake still ends in the
unimplemented remainder, not a normal return. -/
theorem fetch_never_returns_ok_witness :
    fetch (.ok ⟨Protocol.v2, [("agent", some "git/host")], none⟩) (.error (.nonIo 0))
      (.ok ⟨"u", "p"⟩) (.ok ()) (.ok ()) (.ok ()) (fun _ c => c) ≠ FetchOutcome.ok :=
  fetch_never_returns_ok (.ok ⟨Protocol.v2, [("agent", some "git/host")], none⟩)
    (.error (.nonIo 0)) (.ok ⟨"u", "p"⟩) (.ok ()) (.ok ()) (.ok ()) (fun _ c => c)

/-- C2 counterexample: a handshake outcome carrying inline refs together with
protocol V2 violates the refs/version invariant; `fetch` then panics on the
`assert_eq!` instead of returning a typed error. -/
theorem fetch_refs_invariant_violation_panics :
    fetch (.ok ⟨Protocol.v2, [], some ["line"]⟩) (.error (.nonIo 0)) (.ok ⟨"u", "p"⟩)
        (.ok ()) (.ok ()) (.ok ()) (fun _ c => c)
      = .panicked (.assertionFailure "Only V1 auto-responds with refs")
    ∧ (fetch (.ok ⟨Protocol.v2, [], some ["line"]⟩) (.error (.nonIo 0)) (.ok ⟨"u", "p"⟩)
        (.ok ()) (.ok ()) (.ok ()) (fun _ c => c)).isErr = false := by
  constructor <;> decide

/-- C2 (amended): the post-handshake code enforces
`refs.is_some() == (protocol_version == V1)` by assertion: a conforming
outcome proceeds (to the unimplemented remainder), a violating outcome causes
an assertion panic — not a typed error. -/
theorem fetch_refs_invariant_enforced_by_assert :
    ∀ (p : Protocol) (refs : Option (List String)),
      ((refs.isSome = true ↔ p = Protocol.v1) →
        fetchTail p refs = .panicked (.unimplemented "rest of fetch"))
      ∧ (¬(refs.isSome = true ↔ p = Protocol.v1) →
        ∃ msg, fetchTail p refs = .panicked (.assertionFailure msg)
          ∧ (fetchTail p refs).isErr = false) := by
  intro p refs
  cases refs with
  | none =>
    cases p with
    | v1 =>
      constructor
      · intro h; simp at h
      · intro _h; exact ⟨_, rfl, rfl⟩
    | v2 =>
      constructor
      · intro _h; rfl
      · intro h; exact absurd (by simp) h
  | some l =>
    cases p with
    | v1 =>
      constructor
      · intro _h; rfl
      · intro h; exact absurd (by simp) h
    | v2 =>
      constructor
      · intro h; simp at h
      · intro _h; exact ⟨_, rfl, rfl⟩

/-- C2 witness: a conforming V1 outcome with inline refs passes the assertion
and reaches the unimplemented remainder. -/
theorem fetch_refs_invariant_enforced_by_assert_witness :
    fetchTail Protocol.v1 (some ["a"]) = .panicked (.unimplemented "rest of fetch") :=
  (fetch_refs_invariant_enforced_by_assert Protocol.v1 (some ["a"])).1 (by decide)

/-- C7: in the V2 list-refs invocation with prefix filtering enabled, refspecs
are deduplicated by match instruction: a later refspec whose instruction
equals that of an earlier one contributes no `ref-prefix` arguments (dropping
it does not change the produced call), and the agent-identity feature is
always pushed onto the outgoing feature list. -/
theorem ls_refs_dedup_and_agent :
    ∀ (agent_feature : String × Option String) (flt : Bool) (rs : List RefSpec)
      (st : LsRefsArgs) (xs ys zs : List RefSpec) (s t : RefSpec),
      t.instruction = s.instruction →
      ls_refs_callback agent_feature true (xs ++ s :: ys ++ t :: zs) st
        = ls_refs_callback agent_feature true (xs ++ s :: ys ++ zs) st
      ∧ agent_feature ∈ (ls_refs_callback agent_feature flt rs st).features := by
  intro agent flt rs st xs ys zs s t hinst
  constructor
  · have key : (xs ++ s :: ys ++ t :: zs).foldl ref_prefix_step ([], st.arguments)
        = (xs ++ s :: ys ++ zs).foldl ref_prefix_step ([], st.arguments) := by
      simp only [List.foldl_append, List.foldl_cons]
      rw [ref_prefix_step_skip _ t (by
        rw [hinst]
        exact foldl_seen_mono ys _ _ (ref_prefix_step_seen_mem _ s))]
    simp only [ls_refs_callback, if_true, key]
  · simp [ls_refs_callback]

/-- C7 witness: two refspecs with the same match instruction produce the same
ls-refs call as the first alone, and the agent feature is present. -/
theorem ls_refs_dedup_and_agent_witness :
    ls_refs_callback ("agent", some "git/oxide") true
        [⟨0, ["refs/heads/"]⟩, ⟨0, ["refs/tags/"]⟩] ⟨[], []⟩
      = ls_refs_callback ("agent", some "git/oxide") true [⟨0, ["refs/heads/"]⟩] ⟨[], []⟩
    ∧ ("agent", some "git/oxide")
        ∈ (ls_refs_callback ("agent", some "git/oxide") true
            [⟨0, ["refs/heads/"]⟩, ⟨0, ["refs/tags/"]⟩] ⟨[], []⟩).features :=
  ⟨(ls_refs_dedup_and_agent ("agent", some "git/oxide") true
      [⟨0, ["refs/heads/"]⟩, ⟨0, ["refs/tags/"]⟩] ⟨[], []⟩ [] [] []
      ⟨0, ["refs/heads/"]⟩ ⟨0, ["refs/tags/"]⟩ rfl).1,
   (ls_refs_dedup_and_agent ("agent", some "git/oxide") true
      [⟨0, ["refs/heads/"]⟩, ⟨0, ["refs/tags/"]⟩] ⟨[], []⟩ [] [] []
      ⟨0, ["refs/heads/"]⟩ ⟨0, ["refs/tags/"]⟩ rfl).2⟩

/-- C4: in `ref_map_inner`, with `N` configured explicit fetch specs followed
by the appended implicit specs, the `i`-th produced mapping is tagged from the
`i`-th validated match row: `ExplicitInRemote(spec_index)` when the row's spec
index is below `N`, `Implicit(spec_index - N)` otherwise. -/
theorem ref_map_spec_index_tagging :
    ∀ (fetch_specs : List RefSpec) (tag_spec : Option RefSpec) (extra0 : List RefSpec)
      (fetch_refs_result : Except RefMapError HandshakeWithRefs)
      (match_validated : List RefSpec → List Ref → Except Nat (List MatchRow × List Nat))
      (rm : RefMap) (remote : HandshakeWithRefs) (rows : List MatchRow) (fixes : List Nat),
      ref_map_inner fetch_specs tag_spec extra0 fetch_refs_result match_validated = .ok rm →
      fetch_refs_result = .ok remote →
      match_validated (fetch_specs ++ addTagRefspec tag_spec extra0) remote.refs = .ok (rows, fixes) →
      ∀ (i : Nat) (row : MatchRow) (m : Mapping),
        rows[i]? = some row → rm.mappings[i]? = some m →
        (row.spec_index < fetch_specs.length →
          m.spec_index = SpecIndex.explicitInRemote row.spec_index)
        ∧ (fetch_specs.length ≤ row.spec_index →
          m.spec_index = SpecIndex.implicit (row.spec_index - fetch_specs.length)) := by
  intro fs ts ex fr mv rm remote rows fixes hok hfr hmv i row m hr hm
  subst hfr
  simp only [ref_map_inner] at hok
  rw [hmv] at hok
  dsimp only at hok
  cases hmr : mapRows fs.length remote.refs rows with
  | none => rw [hmr] at hok; simp at hok
  | some ms =>
    rw [hmr] at hok
    cases hef : extract_object_format remote.outcome with
    | error e => rw [hef] at hok; simp at hok
    | ok kh =>
      rw [hef] at hok
      simp only [RunResult.ok.injEq] at hok
      have hmap : rm.mappings = ms := by rw [← hok]
      rw [hmap] at hm
      have ht := mapRows_get fs.length remote.refs rows ms hmr i row m hr hm
      have hsi := toMapping_spec_index fs.length remote.refs row m ht
      constructor
      · intro hlt
        rw [hsi, if_pos hlt]
      · intro hge
        rw [hsi, if_neg (Nat.not_lt.mpr hge)]

/-- Concrete inputs exercising C4: one explicit spec, one appended tag spec. -/
def c4remote : HandshakeWithRefs := ⟨⟨[], none⟩, [Ref.commit "refs/heads/main" 5]⟩

/-- Validated match rows for the C4 run: one row per spec. -/
def c4rows : List MatchRow :=
  [⟨some 0, .name "refs/heads/main", some "refs/remotes/origin/main", 0⟩,
   ⟨some 0, .name "refs/heads/main", none, 1⟩]

/-- The ref map the C4 run produces. -/
def c4rm : RefMap :=
  { mappings :=
      [⟨Source.ref (Ref.commit "refs/heads/main" 5), some "refs/remotes/origin/main",
          SpecIndex.explicitInRemote 0⟩,
       ⟨Source.ref (Ref.commit "refs/heads/main" 5), none, SpecIndex.implicit 0⟩]
    extra_refspecs := [⟨1, []⟩]
    fixes := []
    remote_refs := [Ref.commit "refs/heads/main" 5]
    handshake := ⟨[], none⟩
    object_hash := Kind.sha1 }

/-- C4 witness: the second row (spec index 1, one explicit spec) is tagged
`Implicit 0` in the produced ref map. -/
theorem ref_map_spec_index_tagging_witness :
    (Mapping.mk (Source.ref (Ref.commit "refs/heads/main" 5)) none (SpecIndex.implicit 0)).spec_index
      = SpecIndex.implicit 0 :=
  (ref_map_spec_index_tagging [⟨0, []⟩] (some ⟨1, []⟩) [] (.ok c4remote)
      (fun _ _ => .ok (c4rows, [])) c4rm c4remote c4rows [] (by decide) rfl (by decide) 1
      ⟨some 0, .name "refs/heads/main", none, 1⟩
      ⟨Source.ref (Ref.commit "refs/heads/main" 5), none, SpecIndex.implicit 0⟩
      (by decide) (by decide)).2 (by decide)

/-- C6: `ref_map` is all-or-nothing with guaranteed teardown: the result never
depends on the notification outcome (a notification failure is swallowed); on
every returning execution of the inner computation the end-of-interaction
notification is attempted exactly once and the inner result is returned
unchanged; on an inner error the caller receives exactly that typed error and
no ref map. -/
theorem ref_map_teardown_all_or_nothing :
    ∀ (fs : List RefSpec) (ts : Option RefSpec) (ex : List RefSpec)
      (fr : Except RefMapError HandshakeWithRefs)
      (mv : List RefSpec → List Ref → Except Nat (List MatchRow × List Nat))
      (n n' : Except ClientError Unit),
      ref_map fs ts ex fr mv n = ref_map fs ts ex fr mv n'
      ∧ ((∀ msg, ref_map_inner fs ts ex fr mv ≠ .panicked msg) →
          (ref_map fs ts ex fr mv n).2 = 1
          ∧ (ref_map fs ts ex fr mv n).1 = ref_map_inner fs ts ex fr mv)
      ∧ (∀ e, ref_map_inner fs ts ex fr mv = .err e →
          (ref_map fs ts ex fr mv n).1 = .err e) := by
  intro fs ts ex fr mv n n'
  refine ⟨?_, ?_, ?_⟩
  · cases h : ref_map_inner fs ts ex fr mv <;> simp [ref_map, h]
  · intro hnp
    cases h : ref_map_inner fs ts ex fr mv with
    | ok v => simp [ref_map, h]
    | err e => simp [ref_map, h]
    | panicked msg => exact absurd h (hnp msg)
  · intro e he
    simp [ref_map, he]

/-- C6 witness: a failing inner computation under a failing notification still
returns exactly the inner typed error, after exactly one notification
attempt. -/
theorem ref_map_teardown_all_or_nothing_witness :
    (ref_map [] none [] (.error (.transportFailure (.nonIo 3))) (fun _ _ => .ok ([], []))
        (.error (.nonIo 9))).1 = .err (.transportFailure (.nonIo 3))
    ∧ (ref_map [] none [] (.error (.transportFailure (.nonIo 3))) (fun _ _ => .ok ([], []))
        (.error (.nonIo 9))).2 = 1 :=
  ⟨(ref_map_teardown_all_or_nothing [] none [] (.error (.transportFailure (.nonIo 3)))
      (fun _ _ => .ok ([], [])) (.error (.nonIo 9)) (.ok ())).2.2
      (.transportFailure (.nonIo 3)) rfl,
   ((ref_map_teardown_all_or_nothing [] none [] (.error (.transportFailure (.nonIo 3)))
      (fun _ _ => .ok ([], [])) (.error (.nonIo 9)) (.ok ())).2.1
      (fun _ h => RunResult.noConfusion h)).1⟩

/-- C1 counterexample: when the first attempt is denied (error payload 0) and
the retry is denied as well (error payload 1), the function rejects the
credentials but returns the retry's permission error, not the original
first-attempt error. -/
theorem fetch_retry_returns_second_error :
    (fetchHandshake (.error (.io ⟨.permissionDenied, 0⟩)) (.error (.io ⟨.permissionDenied, 1⟩))
        (.ok ⟨"user", "pass"⟩) (.ok ()) (.ok ()) (.ok ())).1
      = .error (.transport (.io ⟨.permissionDenied, 1⟩))
    ∧ ((fetchHandshake (.error (.io ⟨.permissionDenied, 0⟩)) (.error (.io ⟨.permissionDenied, 1⟩))
        (.ok ⟨"user", "pass"⟩) (.ok ()) (.ok ()) (.ok ())).1
      == .error (.transport (.io ⟨.permissionDenied, 0⟩))) = false := by
  constructor <;> decide

/-- C1 (amended): the credential retry protocol.  The authenticator is
invoked only when the first attempt fails permission-denied; then `Fill` is
called exactly once and, provided `Fill` and identity installation succeed,
exactly one retry occurs: a successful retry triggers `approve()` and (when
`approve` itself succeeds) the success return, a permission-denied retry
triggers `reject()` and the retry's permission-denied error is returned, any
other retry failure is returned with neither `approve` nor `reject` called.
Per call at most one `Fill` and at most one of `approve`/`reject` happen. -/
theorem fetch_credential_retry_protocol :
    ∀ (first second : Except ClientError SetServiceResponse)
      (fill : Except CredentialsError Identity) (setId : Except ClientError Unit)
      (approve reject : Except CredentialsError Unit),
      ((fetchHandshake first second fill setId approve reject).2.fills ≤ 1
        ∧ (fetchHandshake first second fill setId approve reject).2.approves
            + (fetchHandshake first second fill setId approve reject).2.rejects ≤ 1)
      ∧ (∀ v, first = .ok v →
          fetchHandshake first second fill setId approve reject = (.ok v, ⟨0, 0, 0, 1⟩))
      ∧ (∀ e, first = .error e → e.isPermissionDenied = false →
          fetchHandshake first second fill setId approve reject
            = (.error (.transport e), ⟨0, 0, 0, 1⟩))
      ∧ (∀ e, first = .error e → e.isPermissionDenied = true →
          (fetchHandshake first second fill setId approve reject).2.fills = 1
          ∧ (∀ idy, fill = .ok idy → setId = .ok () →
              (fetchHandshake first second fill setId approve reject).2.attempts = 2
              ∧ (∀ v, second = .ok v →
                  (fetchHandshake first second fill setId approve reject).2.approves = 1
                  ∧ (fetchHandshake first second fill setId approve reject).2.rejects = 0
                  ∧ (approve = .ok () →
                      (fetchHandshake first second fill setId approve reject).1 = .ok v))
              ∧ (∀ e2, second = .error e2 → e2.isPermissionDenied = true →
                  (fetchHandshake first second fill setId approve reject).2.rejects = 1
                  ∧ (fetchHandshake first second fill setId approve reject).2.approves = 0
                  ∧ (reject = .ok () →
                      (fetchHandshake first second fill setId approve reject).1
                        = .error (.transport e2)))
              ∧ (∀ e2, second = .error e2 → e2.isPermissionDenied = false →
                  (fetchHandshake first second fill setId approve reject).2.approves = 0
                  ∧ (fetchHandshake first second fill setId approve reject).2.rejects = 0
                  ∧ (fetchHandshake first second fill setId approve reject).1
                      = .error (.transport e2)))) := by
  intro first second fill setId approve reject
  cases first with
  | ok v => simp [fetchHandshake]
  | error e =>
    cases hpd : e.isPermissionDenied with
    | false => simp [fetchHandshake, hpd]
    | true =>
      cases fill with
      | error ce => simp [fetchHandshake, hpd]
      | ok idy =>
        cases setId with
        | error te => simp [fetchHandshake, hpd]
        | ok u =>
          cases second with
          | ok v2 => cases approve with
            | error ce2 => simp [fetchHandshake, hpd]
            | ok u2 => simp [fetchHandshake, hpd]
          | error e2 =>
            cases hpd2 : e2.isPermissionDenied with
            | false => simp [fetchHandshake, hpd, hpd2]
            | true =>
              cases reject with
              | error ce3 => simp [fetchHandshake, hpd, hpd2]
              | ok u3 => simp [fetchHandshake, hpd, hpd2]

/-- C1 witness: deny-then-deny with a working authenticator exercises the
reject path: exactly one reject is recorded. -/
theorem fetch_credential_retry_protocol_witness :
    (fetchHandshake (.error (.io ⟨.permissionDenied, 5⟩)) (.error (.io ⟨.permissionDenied, 6⟩))
        (.ok ⟨"u", "p"⟩) (.ok ()) (.ok ()) (.ok ())).2.rejects = 1 :=
  ((((fetch_credential_retry_protocol (.error (.io ⟨.permissionDenied, 5⟩))
      (.error (.io ⟨.permissionDenied, 6⟩)) (.ok ⟨"u", "p"⟩) (.ok ()) (.ok ()) (.ok ())).2.2.2
      (.io ⟨.permissionDenied, 5⟩) rfl rfl).2 ⟨"u", "p"⟩ rfl rfl).2.2.1
      (.io ⟨.permissionDenied, 6⟩) rfl rfl).1

end Gitoxide
